import Mathlib

/-!
Verification of the calibration workflow controller of the co2-sensor
frontend (`src/frontend/src/calibrator.tsx`).

The development shallowly embeds:
* the xstate machine `calibrationMachine` (lines 204-230) as a transition
  map plus the xstate semantics that unhandled events leave the state
  unchanged;
* the completion poller `calibrationFinished` (lines 14-42) together with
  the `useEffect` that drives it (lines 253-269) as a small labelled
  transition system over poll events;
* the wizard controller (`Wizard`, `CalibrationLanding.submit`, `start`,
  `open`, `cancel`, lines 238-313) as a labelled transition system whose
  events are user interactions, network-response callbacks and component
  teardown;
* the auto-close timer effect (lines 273-288) as a timed transition system.

Phase names follow the source (`closed`, `go_outside`,
`calibration_in_progress`, `calibration_successful`); the specification
calls these `Closed`, `AwaitingInput`, `InProgress` and `Succeeded`.  The
spec event `SUBMIT` (validation passed) materialises in the source as the
machine event `START`, and the poller's `READY` signal as `DONE`.
-/

namespace Calib

/-- The four states of `calibrationMachine` (calibrator.tsx lines 204-230). -/
inductive Phase
  | closed
  | go_outside
  | calibration_in_progress
  | calibration_successful
deriving DecidableEq

/-- The events appearing in the `on:` maps of `calibrationMachine`. -/
inductive MEvent
  | OPEN
  | START
  | CLOSE
  | DONE
deriving DecidableEq

/-- The `on:` transition maps of `calibrationMachine`, one clause per listed
transition; `none` for every (state, event) pair the machine configuration
does not list. -/
def calibrationMachine : Phase → MEvent → Option Phase
  | .closed, .OPEN => some .go_outside
  | .go_outside, .START => some .calibration_in_progress
  | .go_outside, .CLOSE => some .closed
  | .calibration_in_progress, .DONE => some .calibration_successful
  | .calibration_successful, .CLOSE => some .closed
  | _, _ => none

/-- xstate transition semantics: an event a state's `on:` map does not list
leaves the machine in the same state. -/
def machineStep (p : Phase) (e : MEvent) : Phase :=
  (calibrationMachine p e).getD p

/-- `initial: 'closed'` in the machine configuration. -/
def initialPhase : Phase := Phase.closed

/-- Claim C1: the transition function of `calibrationMachine` matches the
spec's table.  From `closed` (spec: Closed) only `OPEN` moves, to
`go_outside` (AwaitingInput); from `go_outside`, `CLOSE` moves to `closed`
and `START` (a validated SUBMIT) to `calibration_in_progress` (InProgress);
from `calibration_in_progress` only `DONE` (the poller's READY signal)
moves, to `calibration_successful` (Succeeded); from
`calibration_successful`, `CLOSE` moves to `closed`; the initial phase is
`closed`; and all ten (phase, event) pairs the machine does not list are
no-ops — in particular `CLOSE` does not change the phase in
`calibration_in_progress`.  (Teardown is not a machine event in the source:
unmounting stops the xstate interpreter instead, see the wizard model
below.) -/
theorem c1_transition_table :
    machineStep .closed .OPEN = .go_outside
    ∧ machineStep .go_outside .CLOSE = .closed
    ∧ machineStep .go_outside .START = .calibration_in_progress
    ∧ machineStep .calibration_in_progress .DONE = .calibration_successful
    ∧ machineStep .calibration_successful .CLOSE = .closed
    ∧ initialPhase = .closed
    ∧ machineStep .closed .START = .closed
    ∧ machineStep .closed .CLOSE = .closed
    ∧ machineStep .closed .DONE = .closed
    ∧ machineStep .go_outside .OPEN = .go_outside
    ∧ machineStep .go_outside .DONE = .go_outside
    ∧ machineStep .calibration_in_progress .OPEN = .calibration_in_progress
    ∧ machineStep .calibration_in_progress .START = .calibration_in_progress
    ∧ machineStep .calibration_in_progress .CLOSE = .calibration_in_progress
    ∧ machineStep .calibration_successful .OPEN = .calibration_successful
    ∧ machineStep .calibration_successful .START = .calibration_successful
    ∧ machineStep .calibration_successful .DONE = .calibration_successful := by
  decide

/-!
## Completion poller

`calibrationFinished` (lines 14-42) registers a recurring timer that every
500ms issues `GET /isready`; the response handler runs
`if (response.data) { resolver(); }`, a JavaScript truthiness test on the
response body.  The promise resolves at most once (later `resolver` calls
are no-ops); `p.finally(() => clearInterval(intervalID))` releases the
timer as soon as the promise settles, before any further timer tick can
run; a `.catch` rejects the promise on a transport error.  The `useEffect`
at lines 253-269 awaits the promise and then sends `DONE`.
-/

/-- A JavaScript value as it can appear in `response.data` for the
`GET /isready` response body. -/
inductive JSVal
  | vBool (b : Bool)
  | vNum (n : Int)
  | vStr (s : String)
  | vNull
deriving DecidableEq

/-- JavaScript truthiness, the test performed by `if (response.data)`. -/
def truthy : JSVal → Bool
  | .vBool b => b
  | .vNum n => decide (n ≠ 0)
  | .vStr s => decide (s ≠ "")
  | .vNull => false

/-- State of one poller instance running inside the `calibration_in_progress`
effect: the machine phase it drives, whether the interval timer is alive,
how many `GET /isready` requests are outstanding, whether the promise has
settled, how many `GET`s were issued in total, and how many times `DONE`
was delivered to the machine. -/
structure PollState where
  phase : Phase
  intervalAlive : Bool
  inFlight : Nat
  settled : Bool
  gets : Nat
  doneCount : Nat
deriving DecidableEq

/-- Scheduler events for the poller: an interval tick, a response carrying a
body, or a transport error on one outstanding request. -/
inductive PEvent
  | tick
  | resp (v : JSVal)
  | respErr
deriving DecidableEq

/-- The poller as started by the `calibration_in_progress` effect: timer
alive, nothing in flight, promise pending. -/
def pollInit : PollState :=
  ⟨.calibration_in_progress, true, 0, false, 0, 0⟩

/-- One scheduler step of the poller.  A tick issues a `GET /isready` while
the interval is alive.  A response resolves the promise iff the body is
truthy and the promise is still pending; settling runs the `finally`
handler (clearing the interval) and the awaiting task sends `DONE`.  A
transport error rejects the promise (the `catch` handler), which also
clears the interval via `finally` but delivers no `DONE`. -/
def pollStep (s : PollState) : PEvent → PollState
  | .tick =>
      if s.intervalAlive then
        { s with gets := s.gets + 1, inFlight := s.inFlight + 1 }
      else s
  | .resp v =>
      if s.inFlight = 0 then s
      else if truthy v && !s.settled then
        { s with inFlight := s.inFlight - 1, settled := true,
                 intervalAlive := false,
                 phase := machineStep s.phase .DONE,
                 doneCount := s.doneCount + 1 }
      else { s with inFlight := s.inFlight - 1 }
  | .respErr =>
      if s.inFlight = 0 then s
      else if s.settled then { s with inFlight := s.inFlight - 1 }
      else { s with inFlight := s.inFlight - 1, settled := true,
                    intervalAlive := false }

/-- Run the poller from its start state over a list of scheduler events. -/
def pollRun (evs : List PEvent) : PollState :=
  evs.foldl pollStep pollInit

/-- Whether a poll event is a response with a truthy body. -/
def isTruthyResp : PEvent → Bool
  | .resp v => truthy v
  | _ => false

/-- Claim C10: the poller's response handler tests `response.data` for
JavaScript truthiness, not boolean equality with `true`: from a state with
one request outstanding, a response settles the poll and moves the machine
to `calibration_successful` exactly when its body is truthy — so a nonzero
number or a non-empty string completes the poll like `true`, while
`false`, `0`, the empty string and `null` are treated as not ready. -/
theorem c10_truthy_poll :
    (∀ v, (pollStep ⟨.calibration_in_progress, true, 1, false, 1, 0⟩
            (.resp v)).settled = truthy v)
    ∧ (∀ v, (pollStep ⟨.calibration_in_progress, true, 1, false, 1, 0⟩
            (.resp v)).phase
        = (if truthy v then .calibration_successful
           else .calibration_in_progress))
    ∧ truthy (.vNum 7) = true
    ∧ truthy (.vStr "ready") = true
    ∧ truthy (.vBool false) = false
    ∧ truthy (.vNum 0) = false
    ∧ truthy (.vStr "") = false
    ∧ truthy .vNull = false := by
  refine ⟨?_, ?_, by decide, by decide, by decide, by decide, by decide, by decide⟩
  · intro v
    cases hv : truthy v <;> simp [pollStep, hv]
  · intro v
    cases hv : truthy v <;>
      simp [pollStep, hv, machineStep, calibrationMachine]

/-- Invariant of the poller: while the promise is pending no `DONE` was
delivered, the phase still is `calibration_in_progress` and the interval
timer is alive; once settled the interval is released; `DONE` is delivered
at most once; and the phase reached `calibration_successful` exactly when
one `DONE` was delivered. -/
def PollInv (s : PollState) : Prop :=
  (s.settled = false →
    s.doneCount = 0 ∧ s.phase = .calibration_in_progress
      ∧ s.intervalAlive = true)
  ∧ (s.settled = true → s.intervalAlive = false)
  ∧ s.doneCount ≤ 1
  ∧ (s.phase = .calibration_successful ↔ s.doneCount = 1)

lemma pollInv_init : PollInv pollInit := by
  refine ⟨fun _ => ⟨rfl, rfl, rfl⟩, fun h => absurd h (by decide),
    by decide, by decide⟩

lemma pollInv_step (s : PollState) (e : PEvent) (h : PollInv s) :
    PollInv (pollStep s e) := by
  obtain ⟨hpend, hsettled, hdone, hphase⟩ := h
  cases e with
  | tick =>
      simp only [pollStep]
      split
      · exact ⟨fun hs => hpend hs, fun hs => hsettled hs, hdone, hphase⟩
      · exact ⟨hpend, hsettled, hdone, hphase⟩
  | resp v =>
      simp only [pollStep]
      split
      · exact ⟨hpend, hsettled, hdone, hphase⟩
      · split
        · rename_i hflight hcond
          have hsf : s.settled = false := by
            revert hcond
            cases s.settled <;> cases truthy v <;> simp
          obtain ⟨hd0, hp0, _⟩ := hpend hsf
          refine ⟨fun hs => absurd hs (by simp), fun _ => rfl, ?_, ?_⟩
          · simp [hd0]
          · simp [hd0, hp0, machineStep, calibrationMachine]
        · exact ⟨fun hs => hpend hs, fun hs => hsettled hs, hdone, hphase⟩
  | respErr =>
      simp only [pollStep]
      split
      · exact ⟨hpend, hsettled, hdone, hphase⟩
      · split
        · exact ⟨fun hs => hpend hs, fun hs => hsettled hs, hdone, hphase⟩
        · rename_i hflight hns
          have hsf : s.settled = false := by
            cases hs : s.settled
            · rfl
            · exact absurd hs hns
          obtain ⟨hd0, hp0, _⟩ := hpend hsf
          refine ⟨fun hs => absurd hs (by simp), fun _ => rfl, hdone, ?_⟩
          simp [hd0, hp0]

lemma pollInv_fold (evs : List PEvent) :
    ∀ s : PollState, PollInv s → PollInv (evs.foldl pollStep s) := by
  induction evs with
  | nil => exact fun s h => h
  | cons e evs ih =>
      intro s h
      exact ih (pollStep s e) (pollInv_step s e h)

lemma pollInv_run (evs : List PEvent) : PollInv (pollRun evs) :=
  pollInv_fold evs pollInit pollInv_init

lemma pollStep_phase_of_not_truthy (s : PollState) (e : PEvent)
    (he : isTruthyResp e = false) : (pollStep s e).phase = s.phase := by
  cases e with
  | tick => simp only [pollStep]; split <;> rfl
  | resp v =>
      have hv : truthy v = false := by simpa [isTruthyResp] using he
      simp only [pollStep, hv]
      split
      · rfl
      · simp
  | respErr =>
      simp only [pollStep]
      split
      · rfl
      · split <;> rfl

lemma pollFold_phase_of_not_truthy (evs : List PEvent) :
    ∀ s : PollState, (∀ e ∈ evs, isTruthyResp e = false) →
      (evs.foldl pollStep s).phase = s.phase := by
  induction evs with
  | nil => intro s _; rfl
  | cons e evs ih =>
      intro s h
      have h1 : isTruthyResp e = false := h e (List.mem_cons_self e evs)
      have h2 : ∀ x ∈ evs, isTruthyResp x = false :=
        fun x hx => h x (List.mem_cons_of_mem e hx)
      rw [List.foldl_cons, ih (pollStep s e) h2,
        pollStep_phase_of_not_truthy s e h1]

lemma pollStep_after_settled (s : PollState) (e : PEvent)
    (hs : s.settled = true) (ha : s.intervalAlive = false) :
    (pollStep s e).gets = s.gets ∧ (pollStep s e).settled = true
      ∧ (pollStep s e).intervalAlive = false := by
  cases e with
  | tick => simp [pollStep, ha, hs]
  | resp v =>
      simp only [pollStep, hs]
      split
      · exact ⟨rfl, hs, ha⟩
      · simp [hs, ha]
  | respErr =>
      simp only [pollStep, hs]
      split
      · exact ⟨rfl, hs, ha⟩
      · simp [hs, ha]

lemma pollFold_gets_after_settled (evs : List PEvent) :
    ∀ s : PollState, s.settled = true → s.intervalAlive = false →
      (evs.foldl pollStep s).gets = s.gets := by
  induction evs with
  | nil => intro s _ _; rfl
  | cons e evs ih =>
      intro s hs ha
      obtain ⟨hg, hs', ha'⟩ := pollStep_after_settled s e hs ha
      rw [List.foldl_cons, ih (pollStep s e) hs' ha', hg]

/-- Claim C4: while the poller runs in `calibration_in_progress`, a trace
without any truthy response (any number of `false` results, ticks and
transport errors) leaves the phase unchanged; `DONE` fires at most once
over every trace, even with several polls in flight; the machine is in
`calibration_successful` exactly when the single `DONE` fired; and once
the promise has settled no further `GET /isready` is issued, because the
`finally` handler released the interval before the next tick. -/
theorem c4_poller (evs : List PEvent) :
    ((∀ e ∈ evs, isTruthyResp e = false) →
      (pollRun evs).phase = .calibration_in_progress)
    ∧ (pollRun evs).doneCount ≤ 1
    ∧ ((pollRun evs).phase = .calibration_successful
        ↔ (pollRun evs).doneCount = 1)
    ∧ (∀ more, (pollRun evs).settled = true →
        (pollRun (evs ++ more)).gets = (pollRun evs).gets) := by
  obtain ⟨hpend, hsettled, hdone, hphase⟩ := pollInv_run evs
  refine ⟨?_, hdone, hphase, ?_⟩
  · intro h
    exact pollFold_phase_of_not_truthy evs pollInit h
  · intro more hs
    rw [pollRun, List.foldl_append]
    exact pollFold_gets_after_settled more (pollRun evs) hs (hsettled hs)

/-- A concrete trace with two overlapping polls both answered `true`. -/
def c4demoTruthy : List PEvent :=
  [.tick, .tick, .resp (.vBool true), .resp (.vBool true)]

/-- A concrete trace whose responses are all `false`. -/
def c4demoFalsy : List PEvent :=
  [.tick, .resp (.vBool false), .tick, .resp (.vBool false)]

/-- Witness for C4 at concrete traces: four falsy-response events leave the
phase at `calibration_in_progress`; with two truthy responses in flight,
`DONE` fires once, the phase is `calibration_successful`, and two further
ticks issue no further `GET`. -/
theorem c4_poller_witness :
    (pollRun c4demoFalsy).phase = .calibration_in_progress
    ∧ (pollRun c4demoTruthy).doneCount ≤ 1
    ∧ ((pollRun c4demoTruthy).phase = .calibration_successful
        ↔ (pollRun c4demoTruthy).doneCount = 1)
    ∧ (pollRun (c4demoTruthy ++ [PEvent.tick, PEvent.tick])).gets
        = (pollRun c4demoTruthy).gets :=
  ⟨(c4_poller c4demoFalsy).1 (by decide),
   (c4_poller c4demoTruthy).2.1,
   (c4_poller c4demoTruthy).2.2.1,
   (c4_poller c4demoTruthy).2.2.2 [PEvent.tick, PEvent.tick] (by decide)⟩

/-!
## Wizard controller

`Wizard` (lines 238-313) binds the machine to the UI.  Relevant source
facts embedded below:

* `const signal = axios.CancelToken.source();` runs on **every render**,
  but the unmount-only effect (lines 245-249, empty dependency list)
  closes over the source created in the **first** render, so teardown
  cancels only that source.  `start` (lines 300-308) uses the source of
  the render whose `onStart` prop the form invoked, i.e. the current
  render's source.  Render generations are counted by `renderGen`; a
  state update (`setOpen`, `setValidated`, a machine transition) bumps it.
* `start` awaits `PUT /elevation`, then awaits `PUT /calibrate`, then
  sends `START`.  A rejection of either `await` aborts the async function;
  the `// TODO: Correctly handle a failed elevation/calibration message.`
  comment marks that no error handling exists, so no error state is ever
  set (`surfacedError` stays `false`).
* The submit handler (`CalibrationLanding.submit`, lines 64-86) runs the
  HTML constraint validation `form.checkValidity()` for the input with
  `type="number" min="0" max="29000" required` (default step 1, so only
  integers pass); on failure it sets the `validated` error-display flag
  and returns without calling `onStart`.
* The form is reachable only while the wizard is open in `go_outside`;
  the header button sends `OPEN` only in `closed` and `CLOSE` only while
  `calibrationPending` (it is disabled in `calibration_in_progress` and
  `calibration_successful`).
* After unmount the xstate interpreter is stopped: events sent to it are
  dropped, so a late `send('START')` cannot change the phase.

The landing's `GET /elevation` read (lines 49-62) is issued once when the
landing mounts — the wizard keeps it mounted from the start inside the
`Collapse` — and is cancelled by the landing's own cleanup; it is not part
of the command-call log below, which records the calls issued by the
controller's event handlers.
-/

/-- The raw content of the elevation form field: empty, not parseable as a
number, or a numeric (integer) value. -/
inductive RawInput
  | empty
  | nonNumeric
  | numeric (n : Int)
deriving DecidableEq

/-- `form.checkValidity()` for the elevation input with
`type="number" min="0" max="29000" required`: empty input fails
(`required`), non-numeric input fails (`badInput`), and a numeric value
passes iff it lies between 0 and 29000. -/
def checkValidity : RawInput → Bool
  | .empty => false
  | .nonNumeric => false
  | .numeric n => decide (0 ≤ n) && decide (n ≤ 29000)

/-- The elevation the submit handler passes to `onStart`: the parsed value
when validation passes, nothing otherwise. -/
def submitResult (r : RawInput) : Option Int :=
  match r with
  | .numeric n => if checkValidity (.numeric n) then some n else none
  | _ => none

/-- Progress of one invocation of the async `start` function: waiting on
`PUT /elevation`, waiting on `PUT /calibrate`, finished (`START` sent), or
aborted by a rejection of the first or second request. -/
inductive Stage
  | awaitWrite
  | awaitCal
  | taskDone
  | failedWrite
  | failedCal
deriving DecidableEq

/-- One in-flight `start(elevation)` invocation: the submitted elevation,
the render generation whose axios cancel source its requests carry, and
its progress. -/
structure Task where
  elev : Int
  token : Nat
  stage : Stage
deriving DecidableEq

/-- A command call issued by the controller, tagged with the index of the
`start` invocation that issued it. -/
inductive Call
  | writeElevation (tid : Nat) (e : Int)
  | startCalibration (tid : Nat)
deriving DecidableEq

/-- The `start` invocation a call belongs to. -/
def callTid : Call → Nat
  | .writeElevation tid _ => tid
  | .startCalibration tid => tid

/-- State of one mounted `Wizard`: machine phase, the `isOpen` flag, the
current render generation, whether the component was unmounted, the
landing's `validated` error-display flag, whether any transport error was
surfaced to the user (the source never does), the `start` invocations and
the chronological command-call log. -/
structure WState where
  phase : Phase
  isOpen : Bool
  renderGen : Nat
  tornDown : Bool
  validatedFlag : Bool
  surfacedError : Bool
  tasks : List Task
  calls : List Call
deriving DecidableEq

/-- The freshly mounted wizard: `closed`, collapsed, first render. -/
def wInit : WState := ⟨.closed, false, 1, false, false, false, [], []⟩

/-- Scheduler events for the wizard: the user clicks Calibrate, clicks the
enabled Cancel button, submits the form with some raw input; one of the
two awaited `PUT`s of a `start` invocation resolves or rejects; or the
component unmounts. -/
inductive WEvent
  | uOpen
  | uClose
  | uSubmit (r : RawInput)
  | writeOk (tid : Nat)
  | writeErr (tid : Nat)
  | calOk (tid : Nat)
  | calErr (tid : Nat)
  | teardown
deriving DecidableEq

/-- The render generation whose cancel source the unmount-only effect
captured: its dependency list is empty, so it is the first render's. -/
def mountToken : Nat := 1

/-- Whether the callback of a request carrying cancel token `tok` still
fires: teardown aborts only requests carrying the mount render's source;
every other pending request keeps running. -/
def callbackFires (s : WState) (tok : Nat) : Bool :=
  !(s.tornDown && decide (tok = mountToken))

/-- `open` (lines 290-293): enabled while the header shows Calibrate, i.e.
in `closed`; sends `OPEN` and opens the collapse. -/
def stepOpen (s : WState) : WState :=
  if s.tornDown = false ∧ s.phase = .closed then
    { s with phase := machineStep s.phase .OPEN, isOpen := true,
             renderGen := s.renderGen + 1 }
  else s

/-- `cancel` (lines 295-298): enabled while the header shows an enabled
Cancel button, i.e. in `go_outside`; sends `CLOSE` and collapses. -/
def stepClose (s : WState) : WState :=
  if s.tornDown = false ∧ s.phase = .go_outside then
    { s with phase := machineStep s.phase .CLOSE, isOpen := false,
             renderGen := s.renderGen + 1 }
  else s

/-- `CalibrationLanding.submit` feeding `Wizard.start`: reachable only
while the form is on screen (`go_outside`, open).  A failed
`checkValidity` sets the `validated` error flag and returns; a passed one
invokes `start(elevation)`, which immediately dispatches
`PUT /elevation` carrying the current render's cancel token. -/
def stepSubmit (s : WState) (r : RawInput) : WState :=
  if s.tornDown = false ∧ s.phase = .go_outside ∧ s.isOpen = true then
    match submitResult r with
    | none => { s with validatedFlag := true, renderGen := s.renderGen + 1 }
    | some e =>
        { s with
            tasks := s.tasks ++ [⟨e, s.renderGen, .awaitWrite⟩],
            calls := s.calls ++ [.writeElevation s.tasks.length e] }
  else s

/-- Resumption of one of `start`'s two awaits.  The callback runs iff the
request was not aborted (`callbackFires`) and the invocation is at the
matching await.  When the first await resumes successfully (`emitStart`),
`start` dispatches `PUT /calibrate`; when the second one does (`advance`),
it sends `START` — dropped if the interpreter was stopped by unmount. -/
def respond (s : WState) (tid : Nat) (required newStage : Stage)
    (emitStart advance : Bool) : WState :=
  match s.tasks[tid]? with
  | some t =>
      if t.stage = required ∧ callbackFires s t.token = true then
        { s with
            tasks := s.tasks.set tid { t with stage := newStage },
            calls := if emitStart then
                s.calls ++ [.startCalibration tid]
              else s.calls,
            phase := if advance ∧ s.tornDown = false then
                machineStep s.phase .START
              else s.phase,
            renderGen := if advance ∧ s.tornDown = false then
                s.renderGen + 1
              else s.renderGen }
      else s
  | none => s

/-- One scheduler step of the wizard. -/
def wStep (s : WState) : WEvent → WState
  | .uOpen => stepOpen s
  | .uClose => stepClose s
  | .uSubmit r => stepSubmit s r
  | .writeOk tid => respond s tid .awaitWrite .awaitCal true false
  | .writeErr tid => respond s tid .awaitWrite .failedWrite false false
  | .calOk tid => respond s tid .awaitCal .taskDone false true
  | .calErr tid => respond s tid .awaitCal .failedCal false false
  | .teardown => { s with tornDown := true }

/-- Run the wizard from mount over a list of scheduler events. -/
def wRun (evs : List WEvent) : WState :=
  evs.foldl wStep wInit

/-- The calls belonging to one `start` invocation, in order. -/
def callsOf (tid : Nat) (l : List Call) : List Call :=
  l.filter (fun c => callTid c == tid)

/-- Whether a call is a `PUT /calibrate`. -/
def isStartCal : Call → Bool
  | .startCalibration _ => true
  | _ => false

/-- Number of `PUT /calibrate` calls in a log. -/
def startCalCount (l : List Call) : Nat := l.countP isStartCal

/-- Whether a wizard event is a form submission that passes validation. -/
def isValidSubmit : WEvent → Bool
  | .uSubmit r => checkValidity r
  | _ => false

/-- Number of validated submissions in an event trace. -/
def validSubmitCount (evs : List WEvent) : Nat := evs.countP isValidSubmit

/-- Claim C9: starting from `closed`, `OPEN` then `CLOSE` returns the
wizard to `closed` and the command-call log is unchanged: the round trip
issues no network call.  (The landing's one-time `GET /elevation` read is
issued at mount, before `OPEN`; its effect has an empty dependency list
and does not re-run on `OPEN` or `CLOSE`.)  The last conjunct restates the
round trip at the machine level. -/
theorem c9_open_close_roundtrip :
    (wRun [WEvent.uOpen, WEvent.uClose]).phase = .closed
    ∧ (wRun [WEvent.uOpen, WEvent.uClose]).calls = wInit.calls
    ∧ machineStep (machineStep initialPhase .OPEN) .CLOSE = initialPhase := by
  decide

/-- The trace of claim C6's failing input: open the wizard, submit a valid
elevation, and let the `PUT /elevation` request fail. -/
def c6demo : List WEvent :=
  [.uOpen, .uSubmit (.numeric 1000), .writeErr 0]

/-- Claim C6, behaviour of the code at the failing input: when the
`PUT /elevation` of a submit rejects, the transition is indeed aborted —
the phase stays `go_outside` (AwaitingInput), `START` is never sent and no
`PUT /calibrate` is issued, so the poller effect never starts — but **no
error is surfaced to the user**: the rejection is unhandled (the source's
`// TODO` at line 301) and `surfacedError` is still `false`, contradicting
the claim's last conjunct. -/
theorem c6_code_behavior :
    (wRun c6demo).phase = .go_outside
    ∧ (wRun c6demo).surfacedError = false
    ∧ (wRun c6demo).calls = [Call.writeElevation 0 1000]
    ∧ (wRun c6demo).tasks = [⟨1000, 2, .failedWrite⟩] := by
  decide

/-- The trace of claim C7's failing input: open the wizard, submit a valid
elevation, unmount the component while the `PUT /elevation` is in flight,
then let that request resolve. -/
def c7demo : List WEvent :=
  [.uOpen, .uSubmit (.numeric 1000), .teardown, .writeOk 0]

/-- Claim C7, behaviour of the code at the failing input: the pending
`PUT /elevation` was issued from render generation 2 (the wizard
re-rendered when it opened), while the unmount-only cleanup cancels only
the first render's cancel source (`mountToken = 1`).  The request is
therefore not cancelled by teardown; its callback fires afterwards and
`start` even dispatches a fresh `PUT /calibrate` post-unmount — the log
grows after `tornDown`, contradicting the claim that teardown cancels all
pending command requests and that no callback fires afterwards.  (The
stopped interpreter does drop the late `START`, so the phase itself no
longer changes.) -/
theorem c7_code_behavior :
    (wRun [WEvent.uOpen, WEvent.uSubmit (.numeric 1000)]).tasks
        = [⟨1000, 2, .awaitWrite⟩]
    ∧ mountToken = 1
    ∧ (wRun [WEvent.uOpen, WEvent.uSubmit (.numeric 1000),
        WEvent.teardown]).calls = [Call.writeElevation 0 1000]
    ∧ (wRun c7demo).tornDown = true
    ∧ (wRun c7demo).calls
        = [Call.writeElevation 0 1000, Call.startCalibration 0]
    ∧ (wRun c7demo).phase = .go_outside := by
  decide

/-- The trace of claim C3's counterexample: within one session (one
`OPEN`, never closed), the user submits twice while the first submit's
requests are still in flight; both `PUT /elevation`s then resolve. -/
def c3demo : List WEvent :=
  [.uOpen, .uSubmit (.numeric 1000), .uSubmit (.numeric 1000),
   .writeOk 0, .writeOk 1]

/-- Claim C3 counterexample: the trace `c3demo` stays within a single
session — it contains one `OPEN` and no `CLOSE` or teardown — yet the
controller issues **two** `PUT /calibrate` calls, because nothing disables
the submit button while the first `start` invocation is still awaiting its
requests and the machine is still in `go_outside`.  This refutes "at most
one startCalibration call per session for every sequence of user
events". -/
theorem c3_counterexample :
    startCalCount (wRun c3demo).calls = 2
    ∧ WEvent.uClose ∉ c3demo
    ∧ WEvent.teardown ∉ c3demo := by
  decide

/-- The calls one `start` invocation has issued so far, determined by its
progress: after dispatching `PUT /elevation` (or after it rejected) the
invocation has issued exactly that write; once the write resolved the
invocation has also issued exactly one `PUT /calibrate`. -/
def expectedCalls (tid : Nat) (t : Task) : List Call :=
  match t.stage with
  | .awaitWrite => [.writeElevation tid t.elev]
  | .failedWrite => [.writeElevation tid t.elev]
  | _ => [.writeElevation tid t.elev, .startCalibration tid]

/-- Wizard invariant: every `start` invocation's calls are exactly the ones
its progress prescribes, in order; indices beyond the spawned invocations
own no calls; every call belongs to a spawned invocation; and the machine
is in `calibration_in_progress` only if some invocation has completed
(sent `START`). -/
def WInv (s : WState) : Prop :=
  (∀ tid t, s.tasks[tid]? = some t →
    callsOf tid s.calls = expectedCalls tid t)
  ∧ (∀ tid, s.tasks.length ≤ tid → callsOf tid s.calls = [])
  ∧ (∀ c ∈ s.calls, callTid c < s.tasks.length)
  ∧ (s.phase = .calibration_in_progress →
      ∃ tid : Nat, ∃ t : Task, s.tasks[tid]? = some t ∧ t.stage = .taskDone)

lemma callsOf_append (tid : Nat) (l₁ l₂ : List Call) :
    callsOf tid (l₁ ++ l₂) = callsOf tid l₁ ++ callsOf tid l₂ :=
  List.filter_append ..

lemma callsOf_singleton (tid : Nat) (c : Call) :
    callsOf tid [c] = if callTid c = tid then [c] else [] := by
  by_cases h : callTid c = tid <;> simp [callsOf, h]

lemma winv_init : WInv wInit := by
  unfold WInv
  refine ⟨?_, ?_, ?_, ?_⟩
  · intro tid t ht
    simp [wInit] at ht
  · intro tid _
    rfl
  · intro c hc
    simp [wInit] at hc
  · intro hp
    exact absurd hp (by decide)

lemma winv_stepOpen (s : WState) (h : WInv s) : WInv (stepOpen s) := by
  obtain ⟨h1, h2, h3, h4⟩ := h
  unfold WInv stepOpen
  split
  · rename_i hc
    refine ⟨h1, h2, h3, ?_⟩
    intro hp
    have hp' : machineStep s.phase .OPEN = Phase.calibration_in_progress := hp
    rw [hc.2] at hp'
    exact absurd hp' (by decide)
  · exact ⟨h1, h2, h3, h4⟩

lemma winv_stepClose (s : WState) (h : WInv s) : WInv (stepClose s) := by
  obtain ⟨h1, h2, h3, h4⟩ := h
  unfold WInv stepClose
  split
  · rename_i hc
    refine ⟨h1, h2, h3, ?_⟩
    intro hp
    have hp' : machineStep s.phase .CLOSE = Phase.calibration_in_progress := hp
    rw [hc.2] at hp'
    exact absurd hp' (by decide)
  · exact ⟨h1, h2, h3, h4⟩

lemma winv_stepSubmit (s : WState) (r : RawInput) (h : WInv s) :
    WInv (stepSubmit s r) := by
  obtain ⟨h1, h2, h3, h4⟩ := h
  unfold WInv stepSubmit
  split
  · cases hres : submitResult r with
    | none => exact ⟨h1, h2, h3, h4⟩
    | some e =>
        set n := s.tasks.length with hn
        refine ⟨?_, ?_, ?_, ?_⟩
        · intro tid t ht
          simp only at ht ⊢
          rcases Nat.lt_trichotomy tid n with hlt | heq | hgt
          · rw [List.getElem?_append_left hlt] at ht
            rw [callsOf_append, h1 tid t ht, callsOf_singleton]
            have : callTid (Call.writeElevation n e) = n := rfl
            rw [this, if_neg (Nat.ne_of_gt hlt)]
            simp
          · subst heq
            rw [List.getElem?_concat_length] at ht
            obtain rfl := Option.some.inj ht
            rw [callsOf_append, h2 n (le_of_eq hn.symm),
              callsOf_singleton]
            simp [expectedCalls, callTid]
          · have hlen : (s.tasks ++ [(⟨e, s.renderGen, .awaitWrite⟩ : Task)]).length ≤ tid := by
              simp only [List.length_append, List.length_singleton]
              omega
            rw [List.getElem?_eq_none_iff.mpr hlen] at ht
            cases ht
        · intro tid htid
          simp only [List.length_append, List.length_singleton] at htid
          rw [callsOf_append, h2 tid (by omega), callsOf_singleton]
          have : callTid (Call.writeElevation n e) = n := rfl
          rw [this, if_neg (by omega)]
          rfl
        · intro c hc
          simp only [List.mem_append, List.mem_singleton] at hc
          simp only [List.length_append, List.length_singleton]
          rcases hc with hc | rfl
          · have := h3 c hc
            omega
          · show n < n + 1
            omega
        · intro hp
          obtain ⟨tid, t, ht, hstage⟩ := h4 hp
          refine ⟨tid, t, ?_, hstage⟩
          have hlt : tid < s.tasks.length :=
            (List.getElem?_eq_some.mp ht).1
          simp only
          rw [List.getElem?_append_left hlt]
          exact ht
  · exact ⟨h1, h2, h3, h4⟩

lemma winv_teardown (s : WState) (h : WInv s) :
    WInv { s with tornDown := true } := by
  obtain ⟨h1, h2, h3, h4⟩ := h
  exact ⟨h1, h2, h3, h4⟩

lemma respond_eq_none (s : WState) (tid : Nat) (required newStage : Stage)
    (emitStart advance : Bool) (h : s.tasks[tid]? = none) :
    respond s tid required newStage emitStart advance = s := by
  unfold respond
  rw [h]

lemma respond_eq_stale (s : WState) (tid : Nat) (required newStage : Stage)
    (emitStart advance : Bool) (t : Task) (ht : s.tasks[tid]? = some t)
    (h : ¬(t.stage = required ∧ callbackFires s t.token = true)) :
    respond s tid required newStage emitStart advance = s := by
  unfold respond
  rw [ht]
  exact if_neg h

lemma respond_eq_fires (s : WState) (tid : Nat) (required newStage : Stage)
    (emitStart advance : Bool) (t : Task) (ht : s.tasks[tid]? = some t)
    (hstage : t.stage = required) (hfires : callbackFires s t.token = true) :
    respond s tid required newStage emitStart advance
      = { s with
          tasks := s.tasks.set tid { t with stage := newStage },
          calls := s.calls
            ++ (if emitStart then [Call.startCalibration tid] else []),
          phase := if advance ∧ s.tornDown = false then
              machineStep s.phase .START
            else s.phase,
          renderGen := if advance ∧ s.tornDown = false then
              s.renderGen + 1
            else s.renderGen } := by
  unfold respond
  rw [ht]
  refine Eq.trans (if_pos ⟨hstage, hfires⟩) ?_
  cases emitStart <;> simp

lemma winv_respond (s : WState) (tid : Nat) (required newStage : Stage)
    (emitStart advance : Bool)
    (hreq : required = .awaitWrite ∨ required = .awaitCal)
    (hexp : ∀ t : Task, t.stage = required →
      expectedCalls tid { t with stage := newStage }
        = expectedCalls tid t
          ++ (if emitStart then [Call.startCalibration tid] else []))
    (hadv : advance = true → newStage = .taskDone)
    (h : WInv s) : WInv (respond s tid required newStage emitStart advance) := by
  obtain ⟨h1, h2, h3, h4⟩ := h
  rcases ht : s.tasks[tid]? with _ | t
  · rw [respond_eq_none s tid required newStage emitStart advance ht]
    exact ⟨h1, h2, h3, h4⟩
  · by_cases hcond : t.stage = required ∧ callbackFires s t.token = true
    · obtain ⟨hstage, hfires⟩ := hcond
      rw [respond_eq_fires s tid required newStage emitStart advance t ht
        hstage hfires]
      have htlt : tid < s.tasks.length := (List.getElem?_eq_some.mp ht).1
      set t' : Task := { t with stage := newStage } with ht'
      set L : List Call :=
        if emitStart then [Call.startCalibration tid] else [] with hL
      have hLtid : callsOf tid L = L := by
        cases emitStart <;> simp [hL, callsOf, callTid]
      have hLother : ∀ tid2 : Nat, tid2 ≠ tid → callsOf tid2 L = [] := by
        intro tid2 hne
        cases emitStart <;> simp [hL, callsOf, callTid, Ne.symm hne]
      unfold WInv
      refine ⟨?_, ?_, ?_, ?_⟩
      · intro tid2 u hu
        have hu' : (s.tasks.set tid t')[tid2]? = some u := hu
        show callsOf tid2 (s.calls ++ L) = expectedCalls tid2 u
        by_cases hne : tid2 = tid
        · subst hne
          rw [List.getElem?_set, if_pos rfl, if_pos htlt] at hu'
          obtain rfl := Option.some.inj hu'
          rw [callsOf_append, hLtid, h1 tid2 t ht, ht', hexp t hstage, hL]
        · rw [List.getElem?_set, if_neg (fun hh => hne hh.symm)] at hu'
          rw [callsOf_append, hLother tid2 hne, h1 tid2 u hu']
          simp
      · intro tid2 hlen
        have hlen' : s.tasks.length ≤ tid2 := by
          have : (s.tasks.set tid t').length ≤ tid2 := hlen
          rwa [List.length_set] at this
        show callsOf tid2 (s.calls ++ L) = []
        rw [callsOf_append, h2 tid2 hlen', hLother tid2 (by omega)]
        rfl
      · intro c hc
        have hc' : c ∈ s.calls ++ L := hc
        show callTid c < (s.tasks.set tid t').length
        rw [List.length_set]
        rcases List.mem_append.mp hc' with hmem | hmem
        · exact h3 c hmem
        · have : callTid c = tid := by
            cases emitStart
            · simp [hL] at hmem
            · simp [hL] at hmem
              subst hmem
              rfl
          omega
      · intro hp
        have hp' : (if advance = true ∧ s.tornDown = false then
            machineStep s.phase .START else s.phase)
            = Phase.calibration_in_progress := hp
        by_cases hav : advance = true ∧ s.tornDown = false
        · refine ⟨tid, t', ?_, by rw [ht', hadv hav.1]⟩
          show (s.tasks.set tid t')[tid]? = some t'
          rw [List.getElem?_set, if_pos rfl, if_pos htlt]
        · rw [if_neg hav] at hp'
          obtain ⟨tid2, u, hu, hdone⟩ := h4 hp'
          have hne : tid2 ≠ tid := by
            intro hh
            subst hh
            rw [ht] at hu
            obtain rfl := Option.some.inj hu
            rw [hstage] at hdone
            rcases hreq with hh | hh <;> simp [hh] at hdone
          refine ⟨tid2, u, ?_, hdone⟩
          show (s.tasks.set tid t')[tid2]? = some u
          rw [List.getElem?_set, if_neg (fun hh => hne hh.symm)]
          exact hu
    · rw [respond_eq_stale s tid required newStage emitStart advance t ht hcond]
      exact ⟨h1, h2, h3, h4⟩
lemma winv_step (s : WState) (e : WEvent) (h : WInv s) : WInv (wStep s e) := by
  cases e with
  | uOpen => exact winv_stepOpen s h
  | uClose => exact winv_stepClose s h
  | uSubmit r => exact winv_stepSubmit s r h
  | writeOk tid =>
      refine winv_respond s tid .awaitWrite .awaitCal true false
        (Or.inl rfl) ?_ (fun hh => by cases hh) h
      intro t ht
      simp [expectedCalls, ht]
  | writeErr tid =>
      refine winv_respond s tid .awaitWrite .failedWrite false false
        (Or.inl rfl) ?_ (fun hh => by cases hh) h
      intro t ht
      simp [expectedCalls, ht]
  | calOk tid =>
      refine winv_respond s tid .awaitCal .taskDone false true
        (Or.inr rfl) ?_ (fun _ => rfl) h
      intro t ht
      simp [expectedCalls, ht]
  | calErr tid =>
      refine winv_respond s tid .awaitCal .failedCal false false
        (Or.inr rfl) ?_ (fun hh => by cases hh) h
      intro t ht
      simp [expectedCalls, ht]
  | teardown => exact winv_teardown s h

lemma winv_fold (evs : List WEvent) :
    ∀ s : WState, WInv s → WInv (evs.foldl wStep s) := by
  induction evs with
  | nil => exact fun s h => h
  | cons e evs ih =>
      intro s h
      exact ih (wStep s e) (winv_step s e h)

lemma winv_run (evs : List WEvent) : WInv (wRun evs) :=
  winv_fold evs wInit winv_init

lemma respond_calls_cases (s : WState) (tid : Nat) (required newStage : Stage)
    (emitStart advance : Bool) :
    (respond s tid required newStage emitStart advance).calls = s.calls
    ∨ (emitStart = true
        ∧ (respond s tid required newStage emitStart advance).calls
            = s.calls ++ [Call.startCalibration tid]) := by
  rcases ht : s.tasks[tid]? with _ | t
  · rw [respond_eq_none s tid required newStage emitStart advance ht]
    exact Or.inl rfl
  · by_cases hcond : t.stage = required ∧ callbackFires s t.token = true
    · obtain ⟨hstage, hfires⟩ := hcond
      rw [respond_eq_fires s tid required newStage emitStart advance t ht
        hstage hfires]
      cases emitStart
      · exact Or.inl (by simp)
      · exact Or.inr ⟨rfl, by simp⟩
    · rw [respond_eq_stale s tid required newStage emitStart advance t ht hcond]
      exact Or.inl rfl

lemma respond_tasks_length (s : WState) (tid : Nat) (required newStage : Stage)
    (emitStart advance : Bool) :
    (respond s tid required newStage emitStart advance).tasks.length
      = s.tasks.length := by
  rcases ht : s.tasks[tid]? with _ | t
  · rw [respond_eq_none s tid required newStage emitStart advance ht]
  · by_cases hcond : t.stage = required ∧ callbackFires s t.token = true
    · obtain ⟨hstage, hfires⟩ := hcond
      rw [respond_eq_fires s tid required newStage emitStart advance t ht
        hstage hfires]
      simp [List.length_set]
    · rw [respond_eq_stale s tid required newStage emitStart advance t ht hcond]

lemma stepOpen_tasks (s : WState) : (stepOpen s).tasks = s.tasks := by
  unfold stepOpen
  split <;> rfl

lemma stepOpen_calls (s : WState) : (stepOpen s).calls = s.calls := by
  unfold stepOpen
  split <;> rfl

lemma stepClose_tasks (s : WState) : (stepClose s).tasks = s.tasks := by
  unfold stepClose
  split <;> rfl

lemma stepClose_calls (s : WState) : (stepClose s).calls = s.calls := by
  unfold stepClose
  split <;> rfl

lemma stepSubmit_eq_disabled (s : WState) (r : RawInput)
    (hg : ¬(s.tornDown = false ∧ s.phase = .go_outside ∧ s.isOpen = true)) :
    stepSubmit s r = s := by
  unfold stepSubmit
  rw [if_neg hg]

lemma stepSubmit_eq_invalid (s : WState) (r : RawInput)
    (h : submitResult r = none) :
    stepSubmit s r = s
    ∨ stepSubmit s r
        = { s with validatedFlag := true, renderGen := s.renderGen + 1 } := by
  unfold stepSubmit
  split
  · rw [h]
    exact Or.inr rfl
  · exact Or.inl rfl

lemma stepSubmit_eq_valid (s : WState) (r : RawInput) (e : Int)
    (h : submitResult r = some e)
    (hg : s.tornDown = false ∧ s.phase = .go_outside ∧ s.isOpen = true) :
    stepSubmit s r
      = { s with
          tasks := s.tasks ++ [⟨e, s.renderGen, .awaitWrite⟩],
          calls := s.calls ++ [.writeElevation s.tasks.length e] } := by
  unfold stepSubmit
  rw [if_pos hg, h]

lemma le_add_ite (a : Nat) (c : Prop) [Decidable c] :
    a ≤ a + (if c then 1 else 0) := by
  split <;> omega

lemma startCal_mem_step (s : WState) (e : WEvent) (tid : Nat)
    (h : Call.startCalibration tid ∈ (wStep s e).calls) :
    Call.startCalibration tid ∈ s.calls ∨ e = WEvent.writeOk tid := by
  cases e with
  | uOpen =>
      left
      have h' : Call.startCalibration tid ∈ (stepOpen s).calls := h
      rw [stepOpen_calls] at h'
      exact h'
  | uClose =>
      left
      have h' : Call.startCalibration tid ∈ (stepClose s).calls := h
      rw [stepClose_calls] at h'
      exact h'
  | uSubmit r =>
      left
      have h' : Call.startCalibration tid ∈ (stepSubmit s r).calls := h
      by_cases hg : s.tornDown = false ∧ s.phase = .go_outside
          ∧ s.isOpen = true
      · rcases hres : submitResult r with _ | e
        · rcases stepSubmit_eq_invalid s r hres with heq | heq <;>
            rw [heq] at h' <;> exact h'
        · rw [stepSubmit_eq_valid s r e hres hg] at h'
          have h'' : Call.startCalibration tid
              ∈ s.calls ++ [Call.writeElevation s.tasks.length e] := h'
          rcases List.mem_append.mp h'' with hm | hm
          · exact hm
          · simp at hm
      · rw [stepSubmit_eq_disabled s r hg] at h'
        exact h'
  | writeOk tid2 =>
      have h' : Call.startCalibration tid
          ∈ (respond s tid2 .awaitWrite .awaitCal true false).calls := h
      rcases respond_calls_cases s tid2 .awaitWrite .awaitCal true false
        with hc | ⟨-, hc⟩
      · rw [hc] at h'
        exact Or.inl h'
      · rw [hc] at h'
        rcases List.mem_append.mp h' with hm | hm
        · exact Or.inl hm
        · right
          have heq : Call.startCalibration tid = Call.startCalibration tid2 :=
            List.mem_singleton.mp hm
          have : tid = tid2 := by injection heq
          rw [this]
  | writeErr tid2 =>
      left
      have h' : Call.startCalibration tid
          ∈ (respond s tid2 .awaitWrite .failedWrite false false).calls := h
      rcases respond_calls_cases s tid2 .awaitWrite .failedWrite false false
        with hc | ⟨he, -⟩
      · rw [hc] at h'
        exact h'
      · exact absurd he (by decide)
  | calOk tid2 =>
      left
      have h' : Call.startCalibration tid
          ∈ (respond s tid2 .awaitCal .taskDone false true).calls := h
      rcases respond_calls_cases s tid2 .awaitCal .taskDone false true
        with hc | ⟨he, -⟩
      · rw [hc] at h'
        exact h'
      · exact absurd he (by decide)
  | calErr tid2 =>
      left
      have h' : Call.startCalibration tid
          ∈ (respond s tid2 .awaitCal .failedCal false false).calls := h
      rcases respond_calls_cases s tid2 .awaitCal .failedCal false false
        with hc | ⟨he, -⟩
      · rw [hc] at h'
        exact h'
      · exact absurd he (by decide)
  | teardown =>
      left
      exact h

lemma startCal_fold (evs : List WEvent) :
    ∀ s : WState, ∀ tid : Nat,
      Call.startCalibration tid ∈ (evs.foldl wStep s).calls →
      Call.startCalibration tid ∈ s.calls ∨ WEvent.writeOk tid ∈ evs := by
  induction evs with
  | nil =>
      intro s tid h
      exact Or.inl h
  | cons e evs ih =>
      intro s tid h
      rcases ih (wStep s e) tid h with hm | hm
      · rcases startCal_mem_step s e tid hm with hm2 | hm2
        · exact Or.inl hm2
        · exact Or.inr (by rw [hm2]; exact List.mem_cons_self _ _)
      · exact Or.inr (List.mem_cons_of_mem e hm)

lemma checkValidity_of_submitResult (r : RawInput) (e : Int)
    (h : submitResult r = some e) : checkValidity r = true := by
  cases r with
  | empty => simp [submitResult] at h
  | nonNumeric => simp [submitResult] at h
  | numeric n =>
      by_cases hv : checkValidity (.numeric n) = true
      · exact hv
      · simp [submitResult, hv] at h

lemma wStep_tasks_length (s : WState) (e : WEvent) :
    (wStep s e).tasks.length
      ≤ s.tasks.length + (if isValidSubmit e then 1 else 0) := by
  cases e with
  | uOpen =>
      show (stepOpen s).tasks.length
        ≤ s.tasks.length + (if isValidSubmit WEvent.uOpen then 1 else 0)
      rw [stepOpen_tasks]
      exact le_add_ite ..
  | uClose =>
      show (stepClose s).tasks.length
        ≤ s.tasks.length + (if isValidSubmit WEvent.uClose then 1 else 0)
      rw [stepClose_tasks]
      exact le_add_ite ..
  | uSubmit r =>
      show (stepSubmit s r).tasks.length
        ≤ s.tasks.length
          + (if isValidSubmit (WEvent.uSubmit r) then 1 else 0)
      by_cases hg : s.tornDown = false ∧ s.phase = .go_outside
          ∧ s.isOpen = true
      · rcases hres : submitResult r with _ | e
        · rcases stepSubmit_eq_invalid s r hres with heq | heq <;>
            rw [heq] <;> exact le_add_ite ..
        · rw [stepSubmit_eq_valid s r e hres hg]
          have hv : checkValidity r = true :=
            checkValidity_of_submitResult r e hres
          have hiv : isValidSubmit (WEvent.uSubmit r) = true := by
            simpa [isValidSubmit] using hv
          simp [hiv]
      · rw [stepSubmit_eq_disabled s r hg]
        exact le_add_ite ..
  | writeOk tid =>
      show (respond s tid .awaitWrite .awaitCal true false).tasks.length
        ≤ s.tasks.length
          + (if isValidSubmit (WEvent.writeOk tid) then 1 else 0)
      rw [respond_tasks_length]
      exact le_add_ite ..
  | writeErr tid =>
      show (respond s tid .awaitWrite .failedWrite false false).tasks.length
        ≤ s.tasks.length
          + (if isValidSubmit (WEvent.writeErr tid) then 1 else 0)
      rw [respond_tasks_length]
      exact le_add_ite ..
  | calOk tid =>
      show (respond s tid .awaitCal .taskDone false true).tasks.length
        ≤ s.tasks.length
          + (if isValidSubmit (WEvent.calOk tid) then 1 else 0)
      rw [respond_tasks_length]
      exact le_add_ite ..
  | calErr tid =>
      show (respond s tid .awaitCal .failedCal false false).tasks.length
        ≤ s.tasks.length
          + (if isValidSubmit (WEvent.calErr tid) then 1 else 0)
      rw [respond_tasks_length]
      exact le_add_ite ..
  | teardown =>
      exact le_add_ite ..

lemma wFold_tasks_length (evs : List WEvent) :
    ∀ s : WState, (evs.foldl wStep s).tasks.length
      ≤ s.tasks.length + validSubmitCount evs := by
  induction evs with
  | nil =>
      intro s
      simp [validSubmitCount]
  | cons e evs ih =>
      intro s
      have h1 := ih (wStep s e)
      have h2 := wStep_tasks_length s e
      have h3 : validSubmitCount (e :: evs)
          = validSubmitCount evs + (if isValidSubmit e then 1 else 0) := by
        simp [validSubmitCount, List.countP_cons]
      rw [List.foldl_cons, h3]
      cases hv : isValidSubmit e
      · simp only [hv, if_neg] at h2 ⊢
        simp at h2 ⊢
        omega
      · simp only [hv, if_pos] at h2 ⊢
        simp at h2 ⊢
        omega

lemma startCalCount_le_one (s : WState) (hI : WInv s)
    (hlen : s.tasks.length ≤ 1) : startCalCount s.calls ≤ 1 := by
  obtain ⟨h1, h2, h3, -⟩ := hI
  rcases Nat.le_one_iff_eq_zero_or_eq_one.mp hlen with h0 | hone
  · have hnil : s.calls = [] := by
      apply List.eq_nil_iff_forall_not_mem.mpr
      intro c hc
      have := h3 c hc
      omega
    rw [hnil]
    decide
  · obtain ⟨t, htasks⟩ := List.length_eq_one.mp hone
    have ht0 : s.tasks[0]? = some t := by
      rw [htasks]
      rfl
    have hexp := h1 0 t ht0
    have hall : ∀ c ∈ s.calls, (callTid c == 0) = true := by
      intro c hc
      have hlt := h3 c hc
      rw [hone] at hlt
      simp [Nat.lt_one_iff.mp hlt]
    have hfull : callsOf 0 s.calls = s.calls := List.filter_eq_self.mpr hall
    calc startCalCount s.calls
        = startCalCount (callsOf 0 s.calls) := by rw [hfull]
      _ = startCalCount (expectedCalls 0 t) := by rw [hexp]
      _ ≤ 1 := by
          cases h : t.stage <;>
            simp [expectedCalls, h, startCalCount, isStartCal]

/-- Claim C3 amended: the controller issues at most one `PUT /calibrate` per
validated SUBMIT — so at most one `startCalibration` call per session holds
for every event sequence containing at most one validated SUBMIT; it does
not hold for sequences with a second SUBMIT racing the first one (see the
counterexample). -/
theorem c3_amended (evs : List WEvent) (h : validSubmitCount evs ≤ 1) :
    startCalCount (wRun evs).calls ≤ 1 := by
  have hlen : (wRun evs).tasks.length
      ≤ wInit.tasks.length + validSubmitCount evs :=
    wFold_tasks_length evs wInit
  have h0 : wInit.tasks.length = 0 := rfl
  exact startCalCount_le_one (wRun evs) (winv_run evs) (by omega)

/-- Witness for the amended C3 at a concrete single-submit trace. -/
theorem c3_amended_witness :
    startCalCount (wRun [WEvent.uOpen, WEvent.uSubmit (.numeric 500),
      WEvent.writeOk 0]).calls ≤ 1 :=
  c3_amended [WEvent.uOpen, WEvent.uSubmit (.numeric 500), WEvent.writeOk 0]
    (by decide)

/-- Claim C2: per successful SUBMIT (an invocation of `start` that reached
`send('START')`, i.e. whose task is `taskDone`), the controller issued
exactly one `PUT /elevation` with the submitted elevation followed by
exactly one `PUT /calibrate`, in that order — the invocation's call log is
exactly that two-element sequence; a `PUT /calibrate` is only ever
dispatched in the resumption of a resolved `PUT /elevation` (the
`writeOk` event); and the machine enters `calibration_in_progress` only
once some invocation has completed its full write-then-start sequence. -/
theorem c2_submit_sequence (evs : List WEvent) (tid : Nat) (t : Task)
    (h : (wRun evs).tasks[tid]? = some t) :
    (t.stage = .taskDone →
      callsOf tid (wRun evs).calls
        = [Call.writeElevation tid t.elev, Call.startCalibration tid])
    ∧ (Call.startCalibration tid ∈ (wRun evs).calls →
        WEvent.writeOk tid ∈ evs)
    ∧ ((wRun evs).phase = .calibration_in_progress →
        ∃ tid2 : Nat, ∃ t2 : Task, (wRun evs).tasks[tid2]? = some t2
          ∧ t2.stage = .taskDone
          ∧ callsOf tid2 (wRun evs).calls
              = [Call.writeElevation tid2 t2.elev,
                 Call.startCalibration tid2]) := by
  obtain ⟨h1, h2, h3, h4⟩ := winv_run evs
  refine ⟨?_, ?_, ?_⟩
  · intro hstage
    rw [h1 tid t h]
    simp [expectedCalls, hstage]
  · intro hmem
    rcases startCal_fold evs wInit tid hmem with hm | hm
    · simp [wInit] at hm
    · exact hm
  · intro hp
    obtain ⟨tid2, t2, ht2, hdone⟩ := h4 hp
    refine ⟨tid2, t2, ht2, hdone, ?_⟩
    rw [h1 tid2 t2 ht2]
    simp [expectedCalls, hdone]

/-- The trace of one clean successful SUBMIT. -/
def c2demo : List WEvent :=
  [.uOpen, .uSubmit (.numeric 1000), .writeOk 0, .calOk 0]

/-- Witness for C2 at the concrete trace `c2demo`. -/
theorem c2_submit_sequence_witness :
    callsOf 0 (wRun c2demo).calls
      = [Call.writeElevation 0 1000, Call.startCalibration 0]
    ∧ WEvent.writeOk 0 ∈ c2demo :=
  ⟨(c2_submit_sequence c2demo 0 ⟨1000, 2, .taskDone⟩ (by decide)).1
      (by decide),
   (c2_submit_sequence c2demo 0 ⟨1000, 2, .taskDone⟩ (by decide)).2.1
      (by decide)⟩

lemma checkValidity_numeric (n : Int) :
    checkValidity (.numeric n) = true ↔ 0 ≤ n ∧ n ≤ 29000 := by
  simp [checkValidity]

lemma submitResult_none_of_invalid (r : RawInput)
    (h : checkValidity r = false) : submitResult r = none := by
  cases r with
  | empty => rfl
  | nonNumeric => rfl
  | numeric n => simp [submitResult, h]

/-- Claim C5: the elevation validation of the submit handler succeeds and
hands the parsed integer to `start` exactly for numeric input between
0 and 29000; it fails on empty and non-numeric input and on values out of
range; and a failed validation sets the `validated` error-display flag,
issues no network call, spawns no request task and leaves the machine
phase unchanged. -/
theorem c5_validation :
    (∀ n : Int, checkValidity (.numeric n) = true ↔ 0 ≤ n ∧ n ≤ 29000)
    ∧ checkValidity .empty = false
    ∧ checkValidity .nonNumeric = false
    ∧ (∀ r : RawInput, ∀ e : Int,
        submitResult r = some e ↔ r = .numeric e ∧ 0 ≤ e ∧ e ≤ 29000)
    ∧ (∀ s : WState, ∀ r : RawInput, checkValidity r = false →
        (wStep s (.uSubmit r)).phase = s.phase
        ∧ (wStep s (.uSubmit r)).calls = s.calls
        ∧ (wStep s (.uSubmit r)).tasks = s.tasks)
    ∧ (∀ s : WState, ∀ r : RawInput,
        s.tornDown = false → s.phase = .go_outside → s.isOpen = true →
        checkValidity r = false →
        (wStep s (.uSubmit r)).validatedFlag = true) := by
  refine ⟨checkValidity_numeric, rfl, rfl, ?_, ?_, ?_⟩
  · intro r e
    constructor
    · intro h
      have hv := checkValidity_of_submitResult r e h
      cases r with
      | empty => simp [submitResult] at h
      | nonNumeric => simp [submitResult] at h
      | numeric n =>
          obtain ⟨h0, h1⟩ := (checkValidity_numeric n).mp hv
          have hsome : some n = some e := by
            rw [← h]
            simp [submitResult, hv]
          obtain rfl := Option.some.inj hsome
          exact ⟨rfl, h0, h1⟩
    · rintro ⟨rfl, h0, h1⟩
      have hv : checkValidity (.numeric e) = true :=
        (checkValidity_numeric e).mpr ⟨h0, h1⟩
      simp [submitResult, hv]
  · intro s r hr
    have hres := submitResult_none_of_invalid r hr
    show (stepSubmit s r).phase = s.phase
      ∧ (stepSubmit s r).calls = s.calls
      ∧ (stepSubmit s r).tasks = s.tasks
    by_cases hg : s.tornDown = false ∧ s.phase = .go_outside
        ∧ s.isOpen = true
    · rcases stepSubmit_eq_invalid s r hres with heq | heq <;>
        rw [heq] <;> exact ⟨rfl, rfl, rfl⟩
    · rw [stepSubmit_eq_disabled s r hg]
      exact ⟨rfl, rfl, rfl⟩
  · intro s r ht hp ho hr
    have hres := submitResult_none_of_invalid r hr
    show (stepSubmit s r).validatedFlag = true
    unfold stepSubmit
    rw [if_pos ⟨ht, hp, ho⟩, hres]

/-- Witness for C5 at concrete inputs: 1000 is accepted; an empty submit in
the freshly mounted state changes nothing; a non-numeric submit in the
open `go_outside` state raises the error-display flag. -/
theorem c5_validation_witness :
    (checkValidity (.numeric 1000) = true
      ↔ (0 : Int) ≤ 1000 ∧ (1000 : Int) ≤ 29000)
    ∧ ((wStep wInit (.uSubmit .empty)).phase = wInit.phase
        ∧ (wStep wInit (.uSubmit .empty)).calls = wInit.calls
        ∧ (wStep wInit (.uSubmit .empty)).tasks = wInit.tasks)
    ∧ (wStep (wRun [WEvent.uOpen]) (.uSubmit .nonNumeric)).validatedFlag
        = true :=
  ⟨c5_validation.1 1000,
   c5_validation.2.2.2.2.1 wInit .empty (by decide),
   c5_validation.2.2.2.2.2 (wRun [WEvent.uOpen]) .nonNumeric
     (by decide) (by decide) (by decide) (by decide)⟩

/-!
## Auto-close timer

The `calibration_successful` effect (lines 273-288) arms
`setTimeout(() => setOpen(false), closeAfterCalibrationMs)` with a default
of 1500ms when the `closeAfterCalibrationMs` prop is undefined.  Closing
the collapse triggers `onExited` → `reset` → `send('CLOSE')`.  A state
change away from `calibration_successful` re-runs the effect, whose
cleanup calls `clearTimeout`, so a manual `CLOSE` cancels the pending
timer.
-/

/-- State of the wizard once calibration succeeded: the machine phase, the
collapse flag, and the remaining milliseconds of the armed auto-close
timeout (`none` when no timeout is pending). -/
structure SuccState where
  phase : Phase
  isOpen : Bool
  timer : Option Nat
deriving DecidableEq

/-- The delay the effect passes to `setTimeout`: the
`closeAfterCalibrationMs` prop when given, 1500ms otherwise (lines
278-281). -/
def closeDelay (closeAfterCalibrationMs : Option Nat) : Nat :=
  closeAfterCalibrationMs.getD 1500

/-- The state right after entering `calibration_successful`: wizard open,
timeout armed with the configured delay. -/
def succInit (closeAfterCalibrationMs : Option Nat) : SuccState :=
  ⟨.calibration_successful, true, some (closeDelay closeAfterCalibrationMs)⟩

/-- One elapsed millisecond.  When the armed timeout reaches its deadline it
fires: `setOpen(false)` collapses the wizard and `onExited` → `reset`
sends `CLOSE`; the timeout is spent. -/
def succTick (s : SuccState) : SuccState :=
  match s.timer with
  | none => s
  | some r =>
      if r ≤ 1 then
        { phase := machineStep s.phase .CLOSE, isOpen := false,
          timer := none }
      else { s with timer := some (r - 1) }

/-- A manual `CLOSE` (`cancel`, lines 295-298): sends `CLOSE` and collapses;
if the machine actually left its state, the re-run of the `[state]` effect
first runs the previous cleanup, which clears the pending timeout. -/
def succClose (s : SuccState) : SuccState :=
  let p := machineStep s.phase .CLOSE
  { phase := p, isOpen := false,
    timer := if p = s.phase then s.timer else none }

/-- `k` elapsed milliseconds. -/
def runTicks (k : Nat) (s : SuccState) : SuccState :=
  succTick^[k] s

lemma runTicks_pending (k : Nat) :
    ∀ r : Nat, k < r →
      runTicks k ⟨.calibration_successful, true, some r⟩
        = ⟨.calibration_successful, true, some (r - k)⟩ := by
  induction k with
  | zero =>
      intro r _
      simp [runTicks]
  | succ k ih =>
      intro r hk
      have h1 : ¬ r ≤ 1 := by omega
      rw [runTicks, Function.iterate_succ_apply]
      have hstep : succTick ⟨.calibration_successful, true, some r⟩
          = ⟨.calibration_successful, true, some (r - 1)⟩ := by
        simp [succTick, h1]
      rw [hstep]
      have h2 : k < r - 1 := by omega
      have h3 := ih (r - 1) h2
      rw [runTicks] at h3
      rw [h3]
      have h4 : r - 1 - k = r - (k + 1) := by omega
      rw [h4]

lemma runTicks_fire (r : Nat) (h : 1 ≤ r) :
    runTicks r ⟨.calibration_successful, true, some r⟩
      = ⟨.closed, false, none⟩ := by
  obtain ⟨k, hk⟩ := Nat.exists_eq_add_of_le h
  subst hk
  have h0 : 1 + k = k + 1 := by omega
  rw [runTicks, h0, Function.iterate_succ_apply']
  have hp := runTicks_pending k (1 + k) (by omega)
  rw [runTicks] at hp
  have h1 : 1 + k - k = 1 := by omega
  rw [h1] at hp
  rw [h0] at hp
  rw [hp]
  simp [succTick, machineStep, calibrationMachine]

lemma runTicks_closed (k : Nat) :
    runTicks k ⟨.closed, false, none⟩ = ⟨.closed, false, none⟩ := by
  induction k with
  | zero => rfl
  | succ k ih =>
      rw [runTicks, Function.iterate_succ_apply]
      exact ih

/-- Claim C8: after entering `calibration_successful` the session closes
automatically after the configured delay and not before — with no prop the
delay is the default 1500ms; after any smaller number of elapsed
milliseconds the phase is still `calibration_successful`, and at the delay
it is `closed`.  A manual `CLOSE` while in `calibration_successful` moves
to `closed` and clears the pending timeout, which therefore never fires:
any amount of elapsed time afterwards changes nothing. -/
theorem c8_autoclose :
    closeDelay none = 1500
    ∧ (∀ closeAfterCalibrationMs : Option Nat, ∀ k : Nat,
        k < closeDelay closeAfterCalibrationMs →
        (runTicks k (succInit closeAfterCalibrationMs)).phase
          = .calibration_successful)
    ∧ (∀ closeAfterCalibrationMs : Option Nat,
        1 ≤ closeDelay closeAfterCalibrationMs →
        (runTicks (closeDelay closeAfterCalibrationMs)
          (succInit closeAfterCalibrationMs)).phase = .closed)
    ∧ (runTicks 1500 (succInit none)).phase = .closed
    ∧ (succClose (succInit none)).phase = .closed
    ∧ (succClose (succInit none)).timer = none
    ∧ (∀ k : Nat, runTicks k (succClose (succInit none))
        = succClose (succInit none)) := by
  refine ⟨rfl, ?_, ?_, ?_, by decide, by decide, ?_⟩
  · intro props k hk
    show (runTicks k
      ⟨.calibration_successful, true, some (closeDelay props)⟩).phase
      = .calibration_successful
    rw [runTicks_pending k (closeDelay props) hk]
  · intro props h1
    show (runTicks (closeDelay props)
      ⟨.calibration_successful, true, some (closeDelay props)⟩).phase
      = .closed
    rw [runTicks_fire (closeDelay props) h1]
  · show (runTicks 1500
      ⟨.calibration_successful, true, some 1500⟩).phase = .closed
    rw [runTicks_fire 1500 (by omega)]
  · intro k
    have hcc : succClose (succInit none) = ⟨.closed, false, none⟩ := by
      decide
    rw [hcc, runTicks_closed]

/-- Witness for C8 at concrete delays: 42ms into the default delay the
wizard is still showing success; with a configured 3ms delay it is closed
after 3ms. -/
theorem c8_autoclose_witness :
    (runTicks 42 (succInit none)).phase = .calibration_successful
    ∧ (runTicks 3 (succInit (some 3))).phase = .closed :=
  ⟨c8_autoclose.2.1 none 42 (by decide),
   c8_autoclose.2.2.1 (some 3) (by decide)⟩

end Calib
